import Mathlib

/-!
Verification of the event vocabulary and chord codec of `src/event.rs`.

Rust `&str` values are modelled as `List Char`; Rust's `str::split('+')`
is `splitPlus` below.  The `KeyModifiers` bit-set of the crossterm
dependency is modelled as `Nat` with the bit constants of its bitflags
declaration; union is `Nat.lor`.
-/

set_option maxHeartbeats 1000000

/-- Modelled from the spec: `MouseEvent` is an opaque payload type defined in
the crossterm dependency; the module needs only structural equality and a
debug rendering of it. -/
structure MouseEvent where
  debugRepr : String
deriving DecidableEq

/-- Modelled from the spec: `Rect` is an opaque layout payload from ratatui;
the module needs only structural equality and a debug rendering. -/
structure Rect where
  debugRepr : String
deriving DecidableEq

/-- Modelled from the spec: `TdChatList` is an opaque chat-backend payload;
the module needs only structural equality and a debug rendering. -/
structure TdChatList where
  debugRepr : String
deriving DecidableEq

/-- Modelled from the spec: `TdMessageReplyToMessage` is an opaque
chat-backend payload; the module needs only structural equality and a debug
rendering. -/
structure TdMessageReplyToMessage where
  debugRepr : String
deriving DecidableEq

/-- The symbolic key codes of crossterm used by the chord codec:
`Backspace, Enter, Left, Right, Up, Down, Home, End, PageUp, PageDown, Tab,
BackTab, Delete, Insert, Null, Esc, F(n), Char(c)`. -/
inductive KeyCode where
  | Backspace
  | Enter
  | Left
  | Right
  | Up
  | Down
  | Home
  | End
  | PageUp
  | PageDown
  | Tab
  | BackTab
  | Delete
  | Insert
  | Null
  | Esc
  | F (n : Nat)
  | Char (c : Char)
deriving DecidableEq

/-- The crossterm `KeyModifiers` bit-set over
`{Shift, Ctrl, Alt, Super, Hyper, Meta}`, modelled as a natural number whose
six low bits are the flags; union is bitwise or. -/
abbrev KeyModifiers := Nat

def KeyModifiers.NONE : KeyModifiers := 0

def KeyModifiers.SHIFT : KeyModifiers := 1

def KeyModifiers.CONTROL : KeyModifiers := 2

def KeyModifiers.ALT : KeyModifiers := 4

def KeyModifiers.SUPER : KeyModifiers := 8

def KeyModifiers.HYPER : KeyModifiers := 16

def KeyModifiers.META : KeyModifiers := 32

/-- Modelled from the spec: `AppError` lives in `app_error.rs`, outside the
file under review; the spec names exactly one error kind at this layer,
`InvalidEvent(token)`, carrying the offending key token. -/
inductive AppError where
  | InvalidEvent (token : List Char)
deriving DecidableEq

/-- The `Event` enum of `src/event.rs`: the closed tagged union of every
stimulus the UI loop reacts to.  Machine integers `u16`surface as `Nat`,
`i64` and `i32` as `Int`; their ranges play no role in the codec. -/
inductive Event where
  | Unknown
  | Resize (width : Nat) (height : Nat)
  | Key (code : KeyCode) (modifiers : KeyModifiers)
  | Paste (text : String)
  | Mouse (event : MouseEvent)
  | Init
  | Render
  | FocusLost
  | FocusGained
  | UpdateArea (area : Rect)
  | EditMessage (messageId : Int) (text : String)
  | ReplyMessage (messageId : Int) (text : String)
  | GetMe
  | LoadChats (chatList : TdChatList) (limit : Int)
  | SendMessage (text : String) (replyTo : Option TdMessageReplyToMessage)
  | SendMessageEdited (messageId : Int) (text : String)
  | GetChatHistory
  | DeleteMessages (messageIds : List Int) (revoke : Bool)
  | ViewAllMessages
deriving DecidableEq

deriving instance DecidableEq for Except

/-- Rust `char::is_ascii`: the code point is at most `0x7F`. -/
def Char.is_ascii (c : Char) : Bool := c.toNat ≤ 0x7F

/-- Rust's `s.split('+')` on the character-list model of `&str`: splitting
the empty string yields one empty segment, and every separator starts a new
segment, so adjacent, leading or trailing separators produce empty
segments. -/
def splitPlus : List Char → List (List Char)
  | [] => [[]]
  | c :: rest =>
    if c = '+' then [] :: splitPlus rest
    else
      match splitPlus rest with
      | [] => [[c]]
      | t :: ts => (c :: t) :: ts

/-- `Event::event_with_modifiers` of `src/event.rs`: map a key token to a
`Key` event carrying the given modifiers, or fail with `InvalidEvent` on the
token.  The named-key string literals of the Rust `match` are spelled as the
character lists they denote.  The Rust fallback arm tests
`e.len() == 1 && e.chars().next().unwrap().is_ascii()`; `len()` is the UTF-8
byte length, so it accepts exactly the tokens of a single character whose
`utf8Size` is one, which the single-character `match` arm below captures
(tokens of zero or at least two characters have byte length zero or at least
two). -/
def Event.event_with_modifiers (s : List Char) (modifiers : KeyModifiers) :
    Except AppError Event :=
  if s = ['b', 'a', 'c', 'k', 's', 'p', 'a', 'c', 'e'] then
    .ok (.Key .Backspace modifiers)
  else if s = ['e', 'n', 't', 'e', 'r'] then .ok (.Key .Enter modifiers)
  else if s = ['l', 'e', 'f', 't'] then .ok (.Key .Left modifiers)
  else if s = ['r', 'i', 'g', 'h', 't'] then .ok (.Key .Right modifiers)
  else if s = ['u', 'p'] then .ok (.Key .Up modifiers)
  else if s = ['d', 'o', 'w', 'n'] then .ok (.Key .Down modifiers)
  else if s = ['h', 'o', 'm', 'e'] then .ok (.Key .Home modifiers)
  else if s = ['e', 'n', 'd'] then .ok (.Key .End modifiers)
  else if s = ['p', 'a', 'g', 'e', '_', 'u', 'p'] then
    .ok (.Key .PageUp modifiers)
  else if s = ['p', 'a', 'g', 'e', '_', 'd', 'o', 'w', 'n'] then
    .ok (.Key .PageDown modifiers)
  else if s = ['t', 'a', 'b'] then .ok (.Key .Tab modifiers)
  else if s = ['b', 'a', 'c', 'k', '_', 't', 'a', 'b'] then
    .ok (.Key .BackTab modifiers)
  else if s = ['d', 'e', 'l', 'e', 't', 'e'] then .ok (.Key .Delete modifiers)
  else if s = ['i', 'n', 's', 'e', 'r', 't'] then .ok (.Key .Insert modifiers)
  else if s = ['n', 'u', 'l', 'l'] then .ok (.Key .Null modifiers)
  else if s = ['e', 's', 'c'] then .ok (.Key .Esc modifiers)
  else if s = ['f', '1'] then .ok (.Key (.F 1) modifiers)
  else if s = ['f', '2'] then .ok (.Key (.F 2) modifiers)
  else if s = ['f', '3'] then .ok (.Key (.F 3) modifiers)
  else if s = ['f', '4'] then .ok (.Key (.F 4) modifiers)
  else if s = ['f', '5'] then .ok (.Key (.F 5) modifiers)
  else if s = ['f', '6'] then .ok (.Key (.F 6) modifiers)
  else if s = ['f', '7'] then .ok (.Key (.F 7) modifiers)
  else if s = ['f', '8'] then .ok (.Key (.F 8) modifiers)
  else if s = ['f', '9'] then .ok (.Key (.F 9) modifiers)
  else if s = ['f', '1', '0'] then .ok (.Key (.F 10) modifiers)
  else if s = ['f', '1', '1'] then .ok (.Key (.F 11) modifiers)
  else if s = ['f', '1', '2'] then .ok (.Key (.F 12) modifiers)
  else
    match s with
    | [c] =>
      if c.utf8Size = 1 ∧ c.is_ascii then .ok (.Key (.Char c) modifiers)
      else .error (.InvalidEvent [c])
    | e => .error (.InvalidEvent e)

/-- The modifier-token mapping inside `Event::from_str`: the six lowercase
modifier names map to their bits; every other token maps to the zero
bit-set. -/
def modifierBits (m : List Char) : KeyModifiers :=
  if m = ['c', 't', 'r', 'l'] then KeyModifiers.CONTROL
  else if m = ['a', 'l', 't'] then KeyModifiers.ALT
  else if m = ['s', 'h', 'i', 'f', 't'] then KeyModifiers.SHIFT
  else if m = ['s', 'u', 'p', 'e', 'r'] then KeyModifiers.SUPER
  else if m = ['m', 'e', 't', 'a'] then KeyModifiers.META
  else if m = ['h', 'y', 'p', 'e', 'r'] then KeyModifiers.HYPER
  else KeyModifiers.NONE

/-- `FromStr::from_str` for `Event` in `src/event.rs`: split the chord on
`+`; when more than one token results, the last token is the key and the
bits of the preceding tokens are folded with bitwise union from the empty
set, otherwise the whole string is the key with empty modifiers.  The Rust
indexing `modifiers[modifiers.len() - 1]` is `getLastD` (the list `splitPlus`
returns is never empty) and `modifiers[..modifiers.len() - 1]` is
`dropLast`. -/
def Event.from_str (s : List Char) : Except AppError Event :=
  let modifiers := splitPlus s
  if modifiers.length > 1 then
    let key := modifiers.getLastD []
    let mods := ((modifiers.dropLast).map modifierBits).foldl
      (fun acc m => acc.lor m) KeyModifiers.NONE
    Event.event_with_modifiers key mods
  else
    Event.event_with_modifiers s KeyModifiers.NONE

/-- A single-quote character, used by the debug rendering of `Char`. -/
def squote : String := String.singleton (Char.ofNat 39)

/-- The derived `Debug` rendering of `KeyCode` from the crossterm dependency:
each variant prints as its name, `F(n)` prints its argument in decimal and
`Char(c)` prints the character between single quotes.  The `Char` arm is
never reached by the formatter of `src/event.rs`, which renders `Char`
specially. -/
def keyCodeDebug : KeyCode → String
  | .Backspace => "Backspace"
  | .Enter => "Enter"
  | .Left => "Left"
  | .Right => "Right"
  | .Up => "Up"
  | .Down => "Down"
  | .Home => "Home"
  | .End => "End"
  | .PageUp => "PageUp"
  | .PageDown => "PageDown"
  | .Tab => "Tab"
  | .BackTab => "BackTab"
  | .Delete => "Delete"
  | .Insert => "Insert"
  | .Null => "Null"
  | .Esc => "Esc"
  | .F n => "F(" ++ toString n ++ ")"
  | .Char c => "Char(" ++ squote ++ String.singleton c ++ squote ++ ")"

/-- Modelled from the spec: the debug rendering of the `KeyModifiers`
bit-set comes from the bitflags derive in the crossterm dependency, outside
this repository; the spec calls it only a generic debug form of the bit-set.
Set flags are listed in declaration order, joined by a pipe. -/
def modDebug (m : KeyModifiers) : String :=
  let names :=
    (if m.land KeyModifiers.SHIFT ≠ 0 then ["SHIFT"] else []) ++
    (if m.land KeyModifiers.CONTROL ≠ 0 then ["CONTROL"] else []) ++
    (if m.land KeyModifiers.ALT ≠ 0 then ["ALT"] else []) ++
    (if m.land KeyModifiers.SUPER ≠ 0 then ["SUPER"] else []) ++
    (if m.land KeyModifiers.HYPER ≠ 0 then ["HYPER"] else []) ++
    (if m.land KeyModifiers.META ≠ 0 then ["META"] else [])
  if names = [] then "(empty)" else String.intercalate " | " names

/-- The key rendering inside the `Display` implementation: `Char(c)` renders
as the character alone, every other key as its derived debug name. -/
def keyDisplay (key : KeyCode) : String :=
  match key with
  | .Char c => String.singleton c
  | k => keyCodeDebug k

/-- The `Debug` rendering of `bool` in Rust. -/
def boolDebug (b : Bool) : String := if b then "true" else "false"

/-- The `Debug` rendering of `Vec<i64>` in Rust: elements in decimal between
brackets, separated by comma and space. -/
def i64ListDebug (l : List Int) : String :=
  "[" ++ String.intercalate ", " (l.map toString) ++ "]"

/-- The `Debug` rendering of `Option<TdMessageReplyToMessage>` in Rust. -/
def optReplyDebug : Option TdMessageReplyToMessage → String
  | none => "None"
  | some r => "Some(" ++ r.debugRepr ++ ")"

/-- The `Display` implementation for `Event` in `src/event.rs`.  For `Key`,
the key is rendered by `keyDisplay`; a `match` on the modifier bit-set then
renders the empty set as the key alone, each single-modifier constant as its
name, a `+` and the key, and any other bit-set as its debug form, a `+` and
the key, with the arms in source order `NONE, CONTROL, ALT, SHIFT, SUPER,
META, HYPER`. -/
def eventDisplay : Event → String
  | .Unknown => "Unknown"
  | .Init => "Init"
  | .Render => "Render"
  | .Resize width height =>
    "Resize(" ++ toString width ++ ", " ++ toString height ++ ")"
  | .Key key modifiers =>
    let k := keyDisplay key
    if modifiers = KeyModifiers.NONE then k
    else if modifiers = KeyModifiers.CONTROL then "Ctrl+" ++ k
    else if modifiers = KeyModifiers.ALT then "Alt+" ++ k
    else if modifiers = KeyModifiers.SHIFT then "Shift+" ++ k
    else if modifiers = KeyModifiers.SUPER then "Super+" ++ k
    else if modifiers = KeyModifiers.META then "Meta+" ++ k
    else if modifiers = KeyModifiers.HYPER then "Hyper+" ++ k
    else modDebug modifiers ++ "+" ++ k
  | .Mouse mouse => "Mouse(" ++ mouse.debugRepr ++ ")"
  | .UpdateArea area => "UpdateArea(" ++ area.debugRepr ++ ")"
  | .Paste s => "Paste(" ++ s ++ ")"
  | .FocusLost => "FocusLost"
  | .FocusGained => "FocusGained"
  | .GetMe => "GetMe"
  | .LoadChats chatList limit =>
    "LoadChats(" ++ chatList.debugRepr ++ ", " ++ toString limit ++ ")"
  | .SendMessage s replyTo =>
    "SendMessage(" ++ s ++ ", " ++ optReplyDebug replyTo ++ ")"
  | .SendMessageEdited messageId s =>
    "SendMessageEdited(" ++ toString messageId ++ ", " ++ s ++ ")"
  | .GetChatHistory => "GetChatHistory"
  | .DeleteMessages messageIds revoke =>
    "DeleteMessages(" ++ i64ListDebug messageIds ++ ", " ++
      boolDebug revoke ++ ")"
  | .EditMessage messageId text =>
    "EditMessage(" ++ toString messageId ++ ", " ++ text ++ ")"
  | .ReplyMessage messageId text =>
    "ReplyMessage(" ++ toString messageId ++ ", " ++ text ++ ")"
  | .ViewAllMessages => "ViewAllMessages"

/-- The table of §4.1 of the spec: each named-key token with the key code it
denotes. -/
def namedKeyTable : List (List Char × KeyCode) :=
  [(['b', 'a', 'c', 'k', 's', 'p', 'a', 'c', 'e'], .Backspace),
   (['e', 'n', 't', 'e', 'r'], .Enter),
   (['l', 'e', 'f', 't'], .Left),
   (['r', 'i', 'g', 'h', 't'], .Right),
   (['u', 'p'], .Up),
   (['d', 'o', 'w', 'n'], .Down),
   (['h', 'o', 'm', 'e'], .Home),
   (['e', 'n', 'd'], .End),
   (['p', 'a', 'g', 'e', '_', 'u', 'p'], .PageUp),
   (['p', 'a', 'g', 'e', '_', 'd', 'o', 'w', 'n'], .PageDown),
   (['t', 'a', 'b'], .Tab),
   (['b', 'a', 'c', 'k', '_', 't', 'a', 'b'], .BackTab),
   (['d', 'e', 'l', 'e', 't', 'e'], .Delete),
   (['i', 'n', 's', 'e', 'r', 't'], .Insert),
   (['n', 'u', 'l', 'l'], .Null),
   (['e', 's', 'c'], .Esc),
   (['f', '1'], .F 1),
   (['f', '2'], .F 2),
   (['f', '3'], .F 3),
   (['f', '4'], .F 4),
   (['f', '5'], .F 5),
   (['f', '6'], .F 6),
   (['f', '7'], .F 7),
   (['f', '8'], .F 8),
   (['f', '9'], .F 9),
   (['f', '1', '0'], .F 10),
   (['f', '1', '1'], .F 11),
   (['f', '1', '2'], .F 12)]

/-- The named-key tokens alone. -/
def namedTokens : List (List Char) := namedKeyTable.map Prod.fst

/-- The six modifier names of the grammar of §4.1. -/
def modifierNames : List (List Char) :=
  [['c', 't', 'r', 'l'],
   ['a', 'l', 't'],
   ['s', 'h', 'i', 'f', 't'],
   ['s', 'u', 'p', 'e', 'r'],
   ['m', 'e', 't', 'a'],
   ['h', 'y', 'p', 'e', 'r']]

/-- The key token of a chord: the last segment of the split on `+` (the
whole chord when no `+` occurs). -/
def keyTokenOf (s : List Char) : List Char := (splitPlus s).getLastD []

/-- The bitwise union of the modifier bits of a token list, folded from the
empty set exactly as `Event::from_str` folds them. -/
def modsUnion (M : List (List Char)) : KeyModifiers :=
  (M.map modifierBits).foldl (fun acc m => acc.lor m) KeyModifiers.NONE

/-- Join a non-empty token list with the `+` separator. -/
def joinPlus : List (List Char) → List Char
  | [] => []
  | [t] => t
  | t :: ts => t ++ '+' :: joinPlus ts

/-- The chord built from modifier tokens `M` and key token `k`:
`join(M, plus) + plus + k`. -/
def chordOf (M : List (List Char)) (k : List Char) : List Char :=
  joinPlus M ++ '+' :: k

/-- The fallback arm of `event_with_modifiers`: the result on a token that
matches no named key. -/
def ewmFallback (s : List Char) (m : KeyModifiers) : Except AppError Event :=
  match s with
  | [c] =>
    if c.utf8Size = 1 ∧ c.is_ascii then .ok (.Key (.Char c) m)
    else .error (.InvalidEvent [c])
  | e => .error (.InvalidEvent e)

/-- Bitwise union on the modifier bit-set is right-commutative, which makes
the modifier fold order-insensitive. -/
instance : RightCommutative (fun (acc m : KeyModifiers) => acc.lor m) :=
  ⟨fun b a1 a2 => by
    show (b ||| a1) ||| a2 = (b ||| a2) ||| a1
    rw [Nat.lor_assoc, Nat.lor_assoc, Nat.lor_comm a1 a2]⟩

example : Event.from_str ['a'] = .ok (.Key (.Char 'a') KeyModifiers.NONE) := by
  decide

example : Event.from_str ['c', 't', 'r', 'l', '+', 'a'] =
    .ok (.Key (.Char 'a') KeyModifiers.CONTROL) := by decide

example : Event.from_str ['+'] = .error (.InvalidEvent []) := by decide

example : Event.from_str ['f', '1', '2'] =
    .ok (.Key (.F 12) KeyModifiers.NONE) := by decide

example : Event.from_str ['é'] = .error (.InvalidEvent ['é']) := by decide

/-! Structural lemmas about `splitPlus`. -/

lemma splitPlus_ne_nil (s : List Char) : splitPlus s ≠ [] := by
  cases s with
  | nil => simp [splitPlus]
  | cons c rest =>
    simp only [splitPlus]
    split
    · simp
    · split <;> simp

lemma splitPlus_no_plus (s : List Char) : ∀ t ∈ splitPlus s, '+' ∉ t := by
  induction s with
  | nil =>
    intro t ht
    simp only [splitPlus, List.mem_singleton] at ht
    subst ht
    simp
  | cons c rest ih =>
    intro t ht
    simp only [splitPlus] at ht
    by_cases hc : c = '+'
    · rw [if_pos hc] at ht
      rcases List.mem_cons.mp ht with rfl | h
      · simp
      · exact ih t h
    · rw [if_neg hc] at ht
      cases hsp : splitPlus rest with
      | nil => exact absurd hsp (splitPlus_ne_nil rest)
      | cons u us =>
        rw [hsp] at ht
        rcases List.mem_cons.mp ht with rfl | h
        · intro hmem
          rcases List.mem_cons.mp hmem with h1 | h1
          · exact hc h1.symm
          · exact ih u (by rw [hsp]; exact List.mem_cons_self u us) h1
        · exact ih t (by rw [hsp]; exact List.mem_cons_of_mem u h)

lemma splitPlus_of_no_plus (k : List Char) (h : '+' ∉ k) :
    splitPlus k = [k] := by
  induction k with
  | nil => rfl
  | cons c rest ih =>
    simp only [List.mem_cons, not_or] at h
    simp only [splitPlus]
    rw [if_neg (fun hc => h.1 hc.symm), ih h.2]

lemma splitPlus_sep (t rest : List Char) (h : '+' ∉ t) :
    splitPlus (t ++ '+' :: rest) = t :: splitPlus rest := by
  induction t with
  | nil => simp [splitPlus]
  | cons c t2 ih =>
    simp only [List.mem_cons, not_or] at h
    simp only [List.cons_append, splitPlus, List.append_eq]
    rw [if_neg (fun hc => h.1 hc.symm), ih h.2]

lemma splitPlus_eq_single (s t : List Char) (h : splitPlus s = [t]) :
    t = s := by
  induction s generalizing t with
  | nil =>
    simp only [splitPlus] at h
    injection h with h1 _
    exact h1.symm
  | cons c rest ih =>
    simp only [splitPlus] at h
    by_cases hc : c = '+'
    · rw [if_pos hc] at h
      injection h with _ h2
      exact absurd h2 (splitPlus_ne_nil rest)
    · rw [if_neg hc] at h
      cases hsp : splitPlus rest with
      | nil => exact absurd hsp (splitPlus_ne_nil rest)
      | cons u us =>
        rw [hsp] at h
        injection h with h1 h2
        subst h2
        have := ih u (by rw [hsp])
        rw [← h1, this]

lemma splitPlus_concat_plus (s : List Char) :
    splitPlus (s ++ ['+']) = splitPlus s ++ [[]] := by
  induction s with
  | nil => simp [splitPlus]
  | cons c rest ih =>
    simp only [List.cons_append, splitPlus, List.append_eq]
    by_cases hc : c = '+'
    · rw [if_pos hc, if_pos hc, ih]
      simp
    · rw [if_neg hc, if_neg hc, ih]
      cases hsp : splitPlus rest with
      | nil => exact absurd hsp (splitPlus_ne_nil rest)
      | cons u us => simp

lemma splitPlus_chordOf (M : List (List Char)) (k : List Char) (hM : M ≠ [])
    (h : ∀ t ∈ M, '+' ∉ t) :
    splitPlus (chordOf M k) = M ++ splitPlus k := by
  induction M with
  | nil => exact absurd rfl hM
  | cons t ts ih =>
    cases ts with
    | nil =>
      simp only [chordOf, joinPlus]
      rw [splitPlus_sep t k (h t (List.mem_cons_self t []))]
      rfl
    | cons u us =>
      simp only [chordOf, joinPlus]
      rw [List.append_assoc, List.cons_append]
      rw [splitPlus_sep t _ (h t (List.mem_cons_self t (u :: us)))]
      have := ih (by simp) (fun x hx => h x (List.mem_cons_of_mem t hx))
      simp only [chordOf] at this
      rw [this]
      rfl

lemma getLastD_mem {α : Type} (l : List α) (d : α) (h : l ≠ []) :
    l.getLastD d ∈ l := by
  induction l generalizing d with
  | nil => exact absurd rfl h
  | cons a as ih =>
    cases as with
    | nil => simp
    | cons b bs =>
      rw [List.getLastD_cons]
      exact List.mem_cons_of_mem a (ih a (by simp))

lemma utf8Size_of_ascii (c : Char) (h : c.is_ascii = true) : c.utf8Size = 1 := by
  unfold Char.utf8Size
  have hn : c.toNat ≤ 0x7F := of_decide_eq_true h
  have hv : c.val ≤ UInt32.ofNatCore 127 Char.utf8Size.proof_1 := by
    rw [UInt32.le_def]
    have hb : c.val.toBitVec.toNat = c.toNat := rfl
    exact BitVec.le_def.mpr (by simpa [hb] using hn)
  simp only [hv, if_pos]

lemma ewm_unnamed (s : List Char) (m : KeyModifiers) (h : s ∉ namedTokens) :
    Event.event_with_modifiers s m = ewmFallback s m := by
  have k01 : s ≠ ['b', 'a', 'c', 'k', 's', 'p', 'a', 'c', 'e'] :=
    fun he => h (by rw [he]; decide)
  have k02 : s ≠ ['e', 'n', 't', 'e', 'r'] := fun he => h (by rw [he]; decide)
  have k03 : s ≠ ['l', 'e', 'f', 't'] := fun he => h (by rw [he]; decide)
  have k04 : s ≠ ['r', 'i', 'g', 'h', 't'] := fun he => h (by rw [he]; decide)
  have k05 : s ≠ ['u', 'p'] := fun he => h (by rw [he]; decide)
  have k06 : s ≠ ['d', 'o', 'w', 'n'] := fun he => h (by rw [he]; decide)
  have k07 : s ≠ ['h', 'o', 'm', 'e'] := fun he => h (by rw [he]; decide)
  have k08 : s ≠ ['e', 'n', 'd'] := fun he => h (by rw [he]; decide)
  have k09 : s ≠ ['p', 'a', 'g', 'e', '_', 'u', 'p'] :=
    fun he => h (by rw [he]; decide)
  have k10 : s ≠ ['p', 'a', 'g', 'e', '_', 'd', 'o', 'w', 'n'] :=
    fun he => h (by rw [he]; decide)
  have k11 : s ≠ ['t', 'a', 'b'] := fun he => h (by rw [he]; decide)
  have k12 : s ≠ ['b', 'a', 'c', 'k', '_', 't', 'a', 'b'] :=
    fun he => h (by rw [he]; decide)
  have k13 : s ≠ ['d', 'e', 'l', 'e', 't', 'e'] :=
    fun he => h (by rw [he]; decide)
  have k14 : s ≠ ['i', 'n', 's', 'e', 'r', 't'] :=
    fun he => h (by rw [he]; decide)
  have k15 : s ≠ ['n', 'u', 'l', 'l'] := fun he => h (by rw [he]; decide)
  have k16 : s ≠ ['e', 's', 'c'] := fun he => h (by rw [he]; decide)
  have k17 : s ≠ ['f', '1'] := fun he => h (by rw [he]; decide)
  have k18 : s ≠ ['f', '2'] := fun he => h (by rw [he]; decide)
  have k19 : s ≠ ['f', '3'] := fun he => h (by rw [he]; decide)
  have k20 : s ≠ ['f', '4'] := fun he => h (by rw [he]; decide)
  have k21 : s ≠ ['f', '5'] := fun he => h (by rw [he]; decide)
  have k22 : s ≠ ['f', '6'] := fun he => h (by rw [he]; decide)
  have k23 : s ≠ ['f', '7'] := fun he => h (by rw [he]; decide)
  have k24 : s ≠ ['f', '8'] := fun he => h (by rw [he]; decide)
  have k25 : s ≠ ['f', '9'] := fun he => h (by rw [he]; decide)
  have k26 : s ≠ ['f', '1', '0'] := fun he => h (by rw [he]; decide)
  have k27 : s ≠ ['f', '1', '1'] := fun he => h (by rw [he]; decide)
  have k28 : s ≠ ['f', '1', '2'] := fun he => h (by rw [he]; decide)
  simp only [Event.event_with_modifiers, if_neg k01, if_neg k02, if_neg k03,
    if_neg k04, if_neg k05, if_neg k06, if_neg k07, if_neg k08, if_neg k09,
    if_neg k10, if_neg k11, if_neg k12, if_neg k13, if_neg k14, if_neg k15,
    if_neg k16, if_neg k17, if_neg k18, if_neg k19, if_neg k20, if_neg k21,
    if_neg k22, if_neg k23, if_neg k24, if_neg k25, if_neg k26, if_neg k27,
    if_neg k28]
  cases s with
  | nil => rfl
  | cons a t =>
    cases t with
    | nil => rfl
    | cons b u => rfl

lemma ewm_named (p : List Char × KeyCode) (hp : p ∈ namedKeyTable)
    (m : KeyModifiers) :
    Event.event_with_modifiers p.1 m = .ok (.Key p.2 m) := by
  fin_cases hp <;> rfl

lemma ewmFallback_nil (m : KeyModifiers) :
    ewmFallback [] m = .error (.InvalidEvent []) := rfl

lemma ewmFallback_single (c : Char) (m : KeyModifiers) :
    ewmFallback [c] m =
      if c.utf8Size = 1 ∧ c.is_ascii then .ok (.Key (.Char c) m)
      else .error (.InvalidEvent [c]) := rfl

lemma ewmFallback_long (c d : Char) (t : List Char) (m : KeyModifiers) :
    ewmFallback (c :: d :: t) m = .error (.InvalidEvent (c :: d :: t)) := rfl

lemma namedTokens_no_plus : ∀ t ∈ namedTokens, '+' ∉ t := by decide

lemma namedKeyTable_not_char :
    ∀ p ∈ namedKeyTable, ∀ c : Char, p.2 ≠ .Char c := by
  intro p hp c
  fin_cases hp <;> simp

lemma ewm_of_mem_namedTokens (s : List Char) (m : KeyModifiers)
    (h : s ∈ namedTokens) :
    ∃ code, Event.event_with_modifiers s m = .ok (.Key code m) ∧
      (s, code) ∈ namedKeyTable := by
  obtain ⟨p, hp, hps⟩ := List.mem_map.mp h
  refine ⟨p.2, ?_, ?_⟩
  · rw [← hps]
    exact ewm_named p hp m
  · rw [← hps]
    exact hp

lemma ewm_ok_shape (s : List Char) (m : KeyModifiers) (e : Event)
    (h : Event.event_with_modifiers s m = .ok e) : ∃ c, e = .Key c m := by
  by_cases hn : s ∈ namedTokens
  · obtain ⟨code, hok, _⟩ := ewm_of_mem_namedTokens s m hn
    rw [hok] at h
    exact ⟨code, (Except.ok.inj h).symm⟩
  · rw [ewm_unnamed s m hn] at h
    rcases s with _ | ⟨c, _ | ⟨d, t⟩⟩
    · rw [ewmFallback_nil] at h
      simp at h
    · rw [ewmFallback_single] at h
      split_ifs at h
      exact ⟨.Char c, (Except.ok.inj h).symm⟩
    · rw [ewmFallback_long] at h
      simp at h

lemma ewm_err_shape (s : List Char) (m : KeyModifiers) (err : AppError)
    (h : Event.event_with_modifiers s m = .error err) :
    err = .InvalidEvent s := by
  by_cases hn : s ∈ namedTokens
  · obtain ⟨code, hok, _⟩ := ewm_of_mem_namedTokens s m hn
    rw [hok] at h
    simp at h
  · rw [ewm_unnamed s m hn] at h
    rcases s with _ | ⟨c, _ | ⟨d, t⟩⟩
    · rw [ewmFallback_nil] at h
      exact (Except.error.inj h).symm
    · rw [ewmFallback_single] at h
      split_ifs at h
      exact (Except.error.inj h).symm
    · rw [ewmFallback_long] at h
      exact (Except.error.inj h).symm

lemma ewm_char_shape (s : List Char) (m m2 : KeyModifiers) (c : Char)
    (h : Event.event_with_modifiers s m = .ok (.Key (.Char c) m2)) :
    s = [c] ∧ c.is_ascii = true := by
  by_cases hn : s ∈ namedTokens
  · obtain ⟨code, hok, htab⟩ := ewm_of_mem_namedTokens s m hn
    rw [hok] at h
    have he := Except.ok.inj h
    injection he with ha _
    exact absurd ha (namedKeyTable_not_char (s, code) htab c)
  · rw [ewm_unnamed s m hn] at h
    rcases s with _ | ⟨c2, _ | ⟨d, t⟩⟩
    · rw [ewmFallback_nil] at h
      simp at h
    · rw [ewmFallback_single] at h
      split_ifs at h with hcond
      · have he := Except.ok.inj h
        injection he with ha _
        injection ha with ha
        subst ha
        exact ⟨rfl, hcond.2⟩
    · rw [ewmFallback_long] at h
      simp at h

lemma ewm_ok_of_valid (s : List Char) (m : KeyModifiers)
    (h : s ∈ namedTokens ∨ ∃ c, s = [c] ∧ c.is_ascii = true) :
    ∃ e, Event.event_with_modifiers s m = .ok e := by
  by_cases hn : s ∈ namedTokens
  · obtain ⟨code, hok, _⟩ := ewm_of_mem_namedTokens s m hn
    exact ⟨_, hok⟩
  · rcases h with h | ⟨c, rfl, hc⟩
    · exact absurd h hn
    · rw [ewm_unnamed _ m hn, ewmFallback_single,
        if_pos ⟨utf8Size_of_ascii c hc, hc⟩]
      exact ⟨_, rfl⟩

lemma ewm_err_of_invalid (s : List Char) (m : KeyModifiers)
    (h : ¬(s ∈ namedTokens ∨ ∃ c, s = [c] ∧ c.is_ascii = true)) :
    Event.event_with_modifiers s m = .error (.InvalidEvent s) := by
  push_neg at h
  obtain ⟨hn, hc⟩ := h
  rw [ewm_unnamed s m hn]
  rcases s with _ | ⟨c, _ | ⟨d, t⟩⟩
  · exact ewmFallback_nil m
  · rw [ewmFallback_single, if_neg]
    intro ⟨_, hasc⟩
    exact hc c rfl hasc
  · exact ewmFallback_long c d t m

lemma from_str_eq (s : List Char) :
    Event.from_str s =
      if (splitPlus s).length > 1 then
        Event.event_with_modifiers ((splitPlus s).getLastD [])
          (modsUnion (splitPlus s).dropLast)
      else Event.event_with_modifiers s KeyModifiers.NONE := rfl

lemma from_str_of_long (s : List Char) (M : List (List Char)) (k : List Char)
    (hsp : splitPlus s = M ++ [k]) (hM : M ≠ []) :
    Event.from_str s = Event.event_with_modifiers k (modsUnion M) := by
  rw [from_str_eq, hsp]
  have hlen : (M ++ [k]).length > 1 := by
    rcases M with _ | ⟨a, t⟩
    · exact absurd rfl hM
    · simp [List.length_append]
  rw [if_pos hlen, List.getLastD_concat, List.dropLast_concat]

lemma from_str_of_short (s : List Char)
    (h : ¬(splitPlus s).length > 1) :
    Event.from_str s = Event.event_with_modifiers s KeyModifiers.NONE := by
  rw [from_str_eq, if_neg h]

lemma from_str_no_plus (s : List Char) (h : '+' ∉ s) :
    Event.from_str s = Event.event_with_modifiers s KeyModifiers.NONE := by
  apply from_str_of_short
  rw [splitPlus_of_no_plus s h]
  simp

lemma modsUnion_perm (M M2 : List (List Char)) (h : M.Perm M2) :
    modsUnion M = modsUnion M2 := by
  unfold modsUnion
  exact (h.map modifierBits).foldl_eq _

lemma modsUnion_dup (A B : List (List Char)) (m : List Char) :
    modsUnion (A ++ m :: m :: B) = modsUnion (A ++ m :: B) := by
  unfold modsUnion
  simp only [List.map_append, List.map_cons, List.foldl_append,
    List.foldl_cons]
  congr 1
  generalize List.foldl (fun acc m => Nat.lor acc m) KeyModifiers.NONE
    (List.map modifierBits A) = x
  generalize modifierBits m = y
  show (x ||| y) ||| y = x ||| y
  rw [Nat.lor_assoc, Nat.or_self]

lemma modifierNames_no_plus : ∀ t ∈ modifierNames, '+' ∉ t := by decide

lemma namedTokens_min_length : ∀ t ∈ namedTokens, 2 ≤ t.length := by decide

lemma ewm_nil (m : KeyModifiers) :
    Event.event_with_modifiers [] m = .error (.InvalidEvent []) := by
  rw [ewm_unnamed [] m (by decide), ewmFallback_nil]

lemma keyTokenOf_of_short (s : List Char) (h : ¬(splitPlus s).length > 1) :
    keyTokenOf s = s := by
  cases hsp : splitPlus s with
  | nil => exact absurd hsp (splitPlus_ne_nil s)
  | cons t ts =>
    cases ts with
    | nil =>
      unfold keyTokenOf
      rw [hsp]
      exact splitPlus_eq_single s t hsp
    | cons u us =>
      exfalso
      apply h
      rw [hsp]
      simp

lemma modifierBits_unnamed (m : List Char) (h : m ∉ modifierNames) :
    modifierBits m = KeyModifiers.NONE := by
  have k1 : m ≠ ['c', 't', 'r', 'l'] := fun he => h (by rw [he]; decide)
  have k2 : m ≠ ['a', 'l', 't'] := fun he => h (by rw [he]; decide)
  have k3 : m ≠ ['s', 'h', 'i', 'f', 't'] := fun he => h (by rw [he]; decide)
  have k4 : m ≠ ['s', 'u', 'p', 'e', 'r'] := fun he => h (by rw [he]; decide)
  have k5 : m ≠ ['m', 'e', 't', 'a'] := fun he => h (by rw [he]; decide)
  have k6 : m ≠ ['h', 'y', 'p', 'e', 'r'] := fun he => h (by rw [he]; decide)
  simp only [modifierBits, if_neg k1, if_neg k2, if_neg k3, if_neg k4,
    if_neg k5, if_neg k6]

/-- C1: for every input string, the chord parser either fails with an
`InvalidEvent` error or returns an event in the `Key(code, mods)` sub-space:
no successful parse yields a variant other than `Key`. -/
theorem C1_parse_ok_is_key (s : List Char) (e : Event)
    (h : Event.from_str s = .ok e) : ∃ code mods, e = .Key code mods := by
  rw [from_str_eq] at h
  split_ifs at h
  · obtain ⟨c, rfl⟩ := ewm_ok_shape _ _ _ h
    exact ⟨c, _, rfl⟩
  · obtain ⟨c, rfl⟩ := ewm_ok_shape _ _ _ h
    exact ⟨c, _, rfl⟩

theorem C1_witness :
    ∃ code mods,
      (Event.Key (.Char 'a') KeyModifiers.NONE : Event) = .Key code mods :=
  C1_parse_ok_is_key ['a'] (.Key (.Char 'a') KeyModifiers.NONE) (by decide)

/-- C2: every named key of the table of §4.1, parsed bare, yields the key
code the table assigns it with the empty modifier set. -/
theorem C2_named_keys (p : List Char × KeyCode) (hp : p ∈ namedKeyTable) :
    Event.from_str p.1 = .ok (.Key p.2 KeyModifiers.NONE) := by
  have hplus : '+' ∉ p.1 :=
    namedTokens_no_plus p.1 (List.mem_map.mpr ⟨p, hp, rfl⟩)
  rw [from_str_no_plus _ hplus]
  exact ewm_named p hp _

theorem C2_witness :
    Event.from_str ['e', 'n', 't', 'e', 'r'] =
      .ok (.Key .Enter KeyModifiers.NONE) :=
  C2_named_keys (['e', 'n', 't', 'e', 'r'], .Enter) (by decide)

/-- C3 counterexample: `+` is a single ASCII character, yet parsing the
one-character string `+` does not yield `Key(Char(+), None)`; the split on
the separator consumes it and the parse fails. -/
theorem C3_counterexample :
    ('+').is_ascii = true ∧
    Event.from_str ['+'] ≠ .ok (.Key (.Char '+') KeyModifiers.NONE) ∧
    Event.from_str ['+'] = .error (.InvalidEvent []) := by decide

/-- C3 amended: for every single ASCII character other than `+`, parsing the
one-character string containing it yields `Key(Char(c), None)`. -/
theorem C3_amended (c : Char) (h1 : c.is_ascii = true) (h2 : c ≠ '+') :
    Event.from_str [c] = .ok (.Key (.Char c) KeyModifiers.NONE) := by
  have hplus : '+' ∉ [c] := fun hm => h2 (List.mem_singleton.mp hm).symm
  rw [from_str_no_plus _ hplus]
  by_cases hn : [c] ∈ namedTokens
  · have := namedTokens_min_length [c] hn
    simp at this
  · rw [ewm_unnamed _ _ hn, ewmFallback_single,
      if_pos ⟨utf8Size_of_ascii c h1, h1⟩]

theorem C3_witness :
    Event.from_str ['a'] = .ok (.Key (.Char 'a') KeyModifiers.NONE) :=
  C3_amended 'a' (by decide) (by decide)

/-- C9: every successful parse that yields a `Char` key code carries an
ASCII character. -/
theorem C9_char_ascii (s : List Char) (c : Char) (m : KeyModifiers)
    (h : Event.from_str s = .ok (.Key (.Char c) m)) : c.is_ascii = true := by
  rw [from_str_eq] at h
  split_ifs at h
  · exact (ewm_char_shape _ _ _ _ h).2
  · exact (ewm_char_shape _ _ _ _ h).2

theorem C9_witness : ('a').is_ascii = true :=
  C9_char_ascii ['a'] 'a' KeyModifiers.NONE (by decide)

/-- C10: no input string parses to a key whose code is `Char(+)`, because
the split consumes every occurrence of the separator; in particular the
one-character chord `+` fails with `InvalidEvent` of the empty token. -/
theorem C10_no_char_plus :
    (∀ s m, Event.from_str s ≠ .ok (.Key (.Char '+') m)) ∧
    Event.from_str ['+'] = .error (.InvalidEvent []) := by
  constructor
  · intro s m h
    rw [from_str_eq] at h
    split_ifs at h with hlen
    · obtain ⟨hs, _⟩ := ewm_char_shape _ _ _ _ h
      have hmem : (splitPlus s).getLastD [] ∈ splitPlus s :=
        getLastD_mem _ _ (splitPlus_ne_nil s)
      have hnp := splitPlus_no_plus s _ hmem
      rw [hs] at hnp
      exact hnp (List.mem_singleton.mpr rfl)
    · obtain ⟨hs, _⟩ := ewm_char_shape _ _ _ _ h
      subst hs
      exact hlen (by decide)
  · decide

theorem C10_witness :
    Event.from_str ['c', 't', 'r', 'l', '+', '+'] ≠
      .ok (.Key (.Char '+') KeyModifiers.CONTROL) :=
  C10_no_char_plus.1 ['c', 't', 'r', 'l', '+', '+'] KeyModifiers.CONTROL

/-- C5: modifier mapping is total and never raises an error: every token
outside the six modifier names, including case-mismatched ones such as
`CTRL`, contributes the zero bit-set, and any parse error is determined by
the key token alone, carrying that token. -/
theorem C5_modifier_total :
    (∀ m, m ∉ modifierNames → modifierBits m = KeyModifiers.NONE) ∧
    (∀ s err, Event.from_str s = .error err →
      err = .InvalidEvent (keyTokenOf s)) := by
  constructor
  · exact modifierBits_unnamed
  · intro s err h
    rw [from_str_eq] at h
    split_ifs at h with hlen
    · exact ewm_err_shape _ _ _ h
    · rw [keyTokenOf_of_short s hlen]
      exact ewm_err_shape _ _ _ h

theorem C5_witness :
    modifierBits ['C', 'T', 'R', 'L'] = KeyModifiers.NONE :=
  C5_modifier_total.1 ['C', 'T', 'R', 'L'] (by decide)

/-- C6: the parser fails exactly when the key token is neither a named key
nor a single ASCII character, the error carries the offending key token
rather than the full chord, the empty chord and any chord ending in `+`
fail with `InvalidEvent` of the empty token, and a single non-ASCII
character such as `é` fails with `InvalidEvent` of that token. -/
theorem C6_failure_characterisation :
    Event.from_str [] = .error (.InvalidEvent []) ∧
    (∀ s, Event.from_str (s ++ ['+']) = .error (.InvalidEvent [])) ∧
    Event.from_str ['é'] = .error (.InvalidEvent ['é']) ∧
    (∀ s err, Event.from_str s = .error err →
      err = .InvalidEvent (keyTokenOf s)) ∧
    (∀ s, (∃ e, Event.from_str s = .ok e) ↔
      (keyTokenOf s ∈ namedTokens ∨
        ∃ c, keyTokenOf s = [c] ∧ c.is_ascii = true)) := by
  refine ⟨by decide, ?_, by decide, ?_, ?_⟩
  · intro s
    rw [from_str_of_long (s ++ ['+']) (splitPlus s) []
      (splitPlus_concat_plus s) (splitPlus_ne_nil s)]
    exact ewm_nil _
  · intro s err h
    rw [from_str_eq] at h
    split_ifs at h with hlen
    · exact ewm_err_shape _ _ _ h
    · rw [keyTokenOf_of_short s hlen]
      exact ewm_err_shape _ _ _ h
  · intro s
    rw [from_str_eq]
    split_ifs with hlen
    · rw [show (splitPlus s).getLastD [] = keyTokenOf s from rfl]
      constructor
      · rintro ⟨e, he⟩
        by_contra hv
        rw [ewm_err_of_invalid _ _ hv] at he
        simp at he
      · exact ewm_ok_of_valid _ _
    · rw [keyTokenOf_of_short s hlen]
      constructor
      · rintro ⟨e, he⟩
        by_contra hv
        rw [ewm_err_of_invalid _ _ hv] at he
        simp at he
      · exact ewm_ok_of_valid _ _

theorem C6_witness :
    Event.from_str ['c', 't', 'r', 'l', '+'] = .error (.InvalidEvent []) :=
  C6_failure_characterisation.2.1 ['c', 't', 'r', 'l']

/-- C4 counterexample: `+` is itself a valid key token (a single ASCII
character accepted by the key-token mapping), `ctrl` is a modifier name, yet
joining them as `ctrl++` does not parse to `Key(Char(+), Ctrl)`: the split
consumes the extra separator and the parse fails on an empty key token. -/
theorem C4_counterexample :
    Event.event_with_modifiers ['+'] KeyModifiers.CONTROL =
      .ok (.Key (.Char '+') KeyModifiers.CONTROL) ∧
    ['c', 't', 'r', 'l'] ∈ modifierNames ∧
    Event.from_str (chordOf [['c', 't', 'r', 'l']] ['+']) =
      .error (.InvalidEvent []) := by decide

/-- C4 amended: for any non-empty list of modifier names and any valid key
token other than the one-character token `+`, parsing the joined chord
yields the key code of the token with the bitwise union of the modifier
bits, and the result is unchanged under any reordering of the modifier
list. -/
theorem C4_amended (M M2 : List (List Char)) (k : List Char) (code : KeyCode)
    (hM : M ≠ []) (hmem : ∀ m ∈ M, m ∈ modifierNames)
    (hk : ∀ mods, Event.event_with_modifiers k mods = .ok (.Key code mods))
    (hkp : k ≠ ['+']) (hperm : M.Perm M2) :
    Event.from_str (chordOf M k) = .ok (.Key code (modsUnion M)) ∧
    Event.from_str (chordOf M2 k) = .ok (.Key code (modsUnion M)) := by
  have hMplus : ∀ t ∈ M, '+' ∉ t :=
    fun t ht => modifierNames_no_plus t (hmem t ht)
  have hkplus : '+' ∉ k := by
    have h0 := hk KeyModifiers.NONE
    have hv : k ∈ namedTokens ∨ ∃ c, k = [c] ∧ c.is_ascii = true := by
      by_contra hv
      rw [ewm_err_of_invalid k _ hv] at h0
      simp at h0
    rcases hv with hv | ⟨c, rfl, _⟩
    · exact namedTokens_no_plus k hv
    · intro hm
      exact hkp (by rw [← List.mem_singleton.mp hm])
  have hsp : splitPlus (chordOf M k) = M ++ [k] := by
    rw [splitPlus_chordOf M k hM hMplus, splitPlus_of_no_plus k hkplus]
  refine ⟨?_, ?_⟩
  · rw [from_str_of_long _ M k hsp hM]
    exact hk _
  · have hmem2 : ∀ t ∈ M2, t ∈ modifierNames :=
      fun t ht => hmem t (hperm.symm.subset ht)
    have hM2 : M2 ≠ [] := by
      intro h0
      apply hM
      rw [← List.length_eq_zero, hperm.length_eq, h0]
      rfl
    have hMplus2 : ∀ t ∈ M2, '+' ∉ t :=
      fun t ht => modifierNames_no_plus t (hmem2 t ht)
    have hsp2 : splitPlus (chordOf M2 k) = M2 ++ [k] := by
      rw [splitPlus_chordOf M2 k hM2 hMplus2, splitPlus_of_no_plus k hkplus]
    rw [from_str_of_long _ M2 k hsp2 hM2, modsUnion_perm M M2 hperm]
    exact hk _

theorem C4_witness :
    Event.from_str
        (chordOf [['c', 't', 'r', 'l'], ['s', 'h', 'i', 'f', 't']] ['a']) =
      .ok (.Key (.Char 'a')
        (modsUnion [['c', 't', 'r', 'l'], ['s', 'h', 'i', 'f', 't']])) ∧
    Event.from_str
        (chordOf [['s', 'h', 'i', 'f', 't'], ['c', 't', 'r', 'l']] ['a']) =
      .ok (.Key (.Char 'a')
        (modsUnion [['c', 't', 'r', 'l'], ['s', 'h', 'i', 'f', 't']])) :=
  C4_amended [['c', 't', 'r', 'l'], ['s', 'h', 'i', 'f', 't']]
    [['s', 'h', 'i', 'f', 't'], ['c', 't', 'r', 'l']] ['a'] (.Char 'a')
    (by decide) (by decide) (fun mods => rfl) (by decide) (by decide)

/-- C8: duplicating a modifier token anywhere in a chord with a valid key
token leaves the parse unchanged, and the chord is accepted: folding the
bits with bitwise union is idempotent. -/
theorem C8_duplicate_modifier (A B : List (List Char)) (m k : List Char)
    (code : KeyCode)
    (hA : ∀ t ∈ A, '+' ∉ t) (hB : ∀ t ∈ B, '+' ∉ t) (hm : '+' ∉ m)
    (hk : '+' ∉ k)
    (hv : ∀ mods, Event.event_with_modifiers k mods = .ok (.Key code mods)) :
    Event.from_str (chordOf (A ++ m :: m :: B) k) =
      Event.from_str (chordOf (A ++ m :: B) k) ∧
    Event.from_str (chordOf (A ++ m :: B) k) =
      .ok (.Key code (modsUnion (A ++ m :: B))) := by
  have hall2 : ∀ t ∈ A ++ m :: B, '+' ∉ t := by
    intro t ht
    rcases List.mem_append.mp ht with h | h
    · exact hA t h
    · rcases List.mem_cons.mp h with rfl | h
      · exact hm
      · exact hB t h
  have hall1 : ∀ t ∈ A ++ m :: m :: B, '+' ∉ t := by
    intro t ht
    rcases List.mem_append.mp ht with h | h
    · exact hA t h
    · rcases List.mem_cons.mp h with rfl | h
      · exact hm
      · rcases List.mem_cons.mp h with rfl | h
        · exact hm
        · exact hB t h
  have hne1 : A ++ m :: m :: B ≠ [] := by simp
  have hne2 : A ++ m :: B ≠ [] := by simp
  have hsp1 : splitPlus (chordOf (A ++ m :: m :: B) k) =
      (A ++ m :: m :: B) ++ [k] := by
    rw [splitPlus_chordOf _ _ hne1 hall1, splitPlus_of_no_plus k hk]
  have hsp2 : splitPlus (chordOf (A ++ m :: B) k) =
      (A ++ m :: B) ++ [k] := by
    rw [splitPlus_chordOf _ _ hne2 hall2, splitPlus_of_no_plus k hk]
  constructor
  · rw [from_str_of_long _ _ _ hsp1 hne1, from_str_of_long _ _ _ hsp2 hne2,
      modsUnion_dup]
  · rw [from_str_of_long _ _ _ hsp2 hne2]
    exact hv _

theorem C8_witness :
    Event.from_str
        (chordOf [['c', 't', 'r', 'l'], ['c', 't', 'r', 'l']] ['a']) =
      Event.from_str (chordOf [['c', 't', 'r', 'l']] ['a']) ∧
    Event.from_str (chordOf [['c', 't', 'r', 'l']] ['a']) =
      .ok (.Key (.Char 'a') (modsUnion [['c', 't', 'r', 'l']])) :=
  C8_duplicate_modifier [] [] ['c', 't', 'r', 'l'] ['a'] (.Char 'a')
    (by decide) (by decide) (by decide) (by decide) (fun mods => rfl)

/-- C7: the formatter renders `Char(c)` as the bare character and every
other key as its symbolic debug name; the empty modifier set renders the key
alone (so a bare ASCII character round-trips to its one-character string),
each canonical single-modifier constant renders as its name, `+` and the
key, and every other bit-set renders as its debug form, `+` and the key. -/
theorem C7_display :
    (∀ c : Char, keyDisplay (.Char c) = String.singleton c) ∧
    (∀ k : KeyCode, (∀ c, k ≠ .Char c) → keyDisplay k = keyCodeDebug k) ∧
    (∀ k : KeyCode,
      eventDisplay (.Key k KeyModifiers.NONE) = keyDisplay k) ∧
    (∀ k : KeyCode,
      eventDisplay (.Key k KeyModifiers.CONTROL) = "Ctrl+" ++ keyDisplay k) ∧
    (∀ k : KeyCode,
      eventDisplay (.Key k KeyModifiers.ALT) = "Alt+" ++ keyDisplay k) ∧
    (∀ k : KeyCode,
      eventDisplay (.Key k KeyModifiers.SHIFT) = "Shift+" ++ keyDisplay k) ∧
    (∀ k : KeyCode,
      eventDisplay (.Key k KeyModifiers.SUPER) = "Super+" ++ keyDisplay k) ∧
    (∀ k : KeyCode,
      eventDisplay (.Key k KeyModifiers.META) = "Meta+" ++ keyDisplay k) ∧
    (∀ k : KeyCode,
      eventDisplay (.Key k KeyModifiers.HYPER) = "Hyper+" ++ keyDisplay k) ∧
    (∀ (k : KeyCode) (mods : KeyModifiers),
      mods ∉ [KeyModifiers.NONE, KeyModifiers.CONTROL, KeyModifiers.ALT,
        KeyModifiers.SHIFT, KeyModifiers.SUPER, KeyModifiers.META,
        KeyModifiers.HYPER] →
      eventDisplay (.Key k mods) = modDebug mods ++ "+" ++ keyDisplay k) ∧
    (∀ c : Char,
      eventDisplay (.Key (.Char c) KeyModifiers.NONE) = String.singleton c) ∧
    eventDisplay (.Key (.Char 'a') KeyModifiers.CONTROL) = "Ctrl+a" := by
  refine ⟨fun c => rfl, ?_, fun k => rfl, fun k => rfl, fun k => rfl,
    fun k => rfl, fun k => rfl, fun k => rfl, fun k => rfl, ?_, fun c => rfl,
    by decide⟩
  · intro k h
    cases k
    all_goals try rfl
    exact absurd rfl (h _)
  · intro k mods h
    simp only [List.mem_cons, not_or] at h
    obtain ⟨h1, h2, h3, h4, h5, h6, h7, _⟩ := h
    simp only [eventDisplay, if_neg h1, if_neg h2, if_neg h3, if_neg h4,
      if_neg h5, if_neg h6, if_neg h7]

theorem C7_witness :
    keyDisplay KeyCode.Enter = keyCodeDebug KeyCode.Enter ∧
    eventDisplay (.Key .Enter (3 : KeyModifiers)) =
      modDebug 3 ++ "+" ++ keyDisplay .Enter :=
  ⟨C7_display.2.1 .Enter (fun c h => KeyCode.noConfusion h),
   C7_display.2.2.2.2.2.2.2.2.2.1 .Enter 3 (by decide)⟩
